import Mathlib

/-!
Verification development for the parallel chunk-processing and
session-coordination engine of the audiobook-creator-tts repository.

The Python sources are shallowly embedded: pure computations become Lean
functions, dictionaries become association lists or partial functions,
the filesystem becomes an explicit record of path predicates, machine
time becomes an explicit rational parameter, and the remote TTS endpoint
becomes an explicit outcome oracle.  Each definition carries a doc
comment naming the source function it embeds.
-/

/-! ### Decimal representation of naturals

`Nat.repr` (used by the f-strings that build artifact file names) is
`(Nat.toDigits 10 n).asString`.  We prove it injective, which is needed
to compare artifact names that differ only in their chunk index.
-/

/-- Decimal digit list of a natural number, most significant first;
reference function used to characterise `Nat.toDigitsCore`. -/
def decDigits (n : ℕ) : List Char :=
  if n < 10 then [Nat.digitChar n]
  else decDigits (n / 10) ++ [Nat.digitChar (n % 10)]
termination_by n
decreasing_by
  exact Nat.div_lt_self (by omega) (by omega)

theorem decDigits_lt {n : ℕ} (h : n < 10) : decDigits n = [Nat.digitChar n] := by
  rw [decDigits, if_pos h]

theorem decDigits_ge {n : ℕ} (h : ¬ n < 10) :
    decDigits n = decDigits (n / 10) ++ [Nat.digitChar (n % 10)] := by
  rw [decDigits, if_neg h]

theorem decDigits_ne_nil (n : ℕ) : decDigits n ≠ [] := by
  rw [decDigits]
  split <;> simp

theorem toDigitsCore10_eq (fuel : ℕ) :
    ∀ (n : ℕ) (acc : List Char), n < fuel →
      Nat.toDigitsCore 10 fuel n acc = decDigits n ++ acc := by
  induction fuel with
  | zero => intro n acc h; omega
  | succ f ih =>
    intro n acc h
    by_cases h10 : n < 10
    · have hdiv : n / 10 = 0 := Nat.div_eq_of_lt h10
      have hmod : n % 10 = n := Nat.mod_eq_of_lt h10
      simp [Nat.toDigitsCore, hdiv, decDigits, h10, hmod]
    · have hdiv : ¬ n / 10 = 0 := by
        have h1 : 1 ≤ n / 10 := (Nat.le_div_iff_mul_le (by omega)).mpr (by omega)
        omega
      have hlt : n / 10 < f := by
        have h1 : n / 10 < n := Nat.div_lt_self (by omega) (by omega)
        omega
      rw [show Nat.toDigitsCore 10 (f + 1) n acc =
          Nat.toDigitsCore 10 f (n / 10) (Nat.digitChar (n % 10) :: acc) by
            simp [Nat.toDigitsCore, hdiv]]
      rw [ih (n / 10) _ hlt]
      rw [decDigits_ge h10]
      simp

theorem toDigits10_eq (n : ℕ) : Nat.toDigits 10 n = decDigits n := by
  have h := toDigitsCore10_eq (n + 1) n [] (by omega)
  simpa [Nat.toDigits] using h

theorem digitChar_inj_lt :
    ∀ a < 10, ∀ b < 10, Nat.digitChar a = Nat.digitChar b → a = b := by
  decide

theorem decDigits_injective : ∀ a b : ℕ, decDigits a = decDigits b → a = b := by
  intro a
  induction a using Nat.strong_induction_on with
  | _ a ih =>
    intro b h
    by_cases ha : a < 10 <;> by_cases hb : b < 10
    · rw [decDigits_lt ha, decDigits_lt hb] at h
      exact digitChar_inj_lt a ha b hb (by simpa using h)
    · exfalso
      rw [decDigits_lt ha, decDigits_ge hb] at h
      have hlen : 1 = (decDigits (b / 10)).length + 1 := by
        simpa using congrArg List.length h
      have hz : (decDigits (b / 10)).length = 0 := by omega
      exact decDigits_ne_nil (b / 10) (List.length_eq_zero.mp hz)
    · exfalso
      rw [decDigits_ge ha, decDigits_lt hb] at h
      have hlen : (decDigits (a / 10)).length + 1 = 1 := by
        simpa using congrArg List.length h
      have hz : (decDigits (a / 10)).length = 0 := by omega
      exact decDigits_ne_nil (a / 10) (List.length_eq_zero.mp hz)
    · rw [decDigits_ge ha, decDigits_ge hb] at h
      have hrev := congrArg List.reverse h
      simp at hrev
      have hmod : a % 10 = b % 10 :=
        digitChar_inj_lt (a % 10) (Nat.mod_lt _ (by omega)) (b % 10)
          (Nat.mod_lt _ (by omega)) hrev.1
      have hdiveq : decDigits (a / 10) = decDigits (b / 10) := hrev.2
      have hdiv : a / 10 = b / 10 :=
        ih (a / 10) (Nat.div_lt_self (by omega) (by omega)) (b / 10) hdiveq
      omega

theorem nat_repr_inj {a b : ℕ} (h : Nat.repr a = Nat.repr b) : a = b := by
  have hdata : (Nat.toDigits 10 a) = (Nat.toDigits 10 b) := by
    have := congrArg String.data h
    simpa [Nat.repr, List.asString] using this
  rw [toDigits10_eq, toDigits10_eq] at hdata
  exact decDigits_injective a b hdata

theorem nat_toString_inj {a b : ℕ} (h : toString a = toString b) : a = b :=
  nat_repr_inj h

/-- Last character of a string, as an Option. -/
def strLast (s : String) : Option Char := s.data.getLast?

theorem strLast_ne_imp_ne {s t : String} (h : strLast s ≠ strLast t) : s ≠ t := by
  intro he
  exact h (by rw [he])

theorem strLast_append_cons (s : String) (c : Char) (rest : List Char) :
    strLast (s ++ String.mk (c :: rest)) = (c :: rest).getLast? := by
  unfold strLast
  rw [String.data_append]
  exact List.getLast?_append_cons _ _ _

/-! ### Coordinator (src/parallel_coordinator.py)

Python dictionaries become association lists (for `worker_progress`,
whose values are iterated for aggregation) or partial functions (for
`chunk_assignments`, which is only ever read through `dict.get`).
`time.time()` becomes an explicit rational `now` argument.
-/

/-- Embeds the `WorkerProgress` dataclass of src/parallel_coordinator.py. -/
structure WorkerProgress where
  worker_id : ℕ
  total_chunks : ℕ
  completed_chunks : ℕ
  failed_chunks : ℕ
  status : String
  last_update_time : ℚ
deriving DecidableEq

/-- Embeds the state held by the `ParallelCoordinator` class. -/
structure ParallelCoordinator where
  total_chunks : ℕ
  num_workers : ℕ
  chunk_assignments : ℕ → Option (List (ℕ × String))
  worker_progress : List (ℕ × WorkerProgress)
  overall_completed : ℕ
  overall_failed : ℕ
  start_time : Option ℚ
  end_time : Option ℚ

/-- Embeds `ParallelCoordinator.__init__`: progress entries are created
for worker ids `1..num_workers`, all counters zero, status
"initializing"; `chunk_assignments` starts as an empty dict. -/
def mkCoordinator (total_chunks num_workers : ℕ) (now : ℚ) : ParallelCoordinator :=
  { total_chunks := total_chunks
    num_workers := num_workers
    chunk_assignments := fun _ => none
    worker_progress := (List.range' 1 num_workers).map
      (fun w => (w, ⟨w, 0, 0, 0, "initializing", now⟩))
    overall_completed := 0
    overall_failed := 0
    start_time := none
    end_time := none }

/-- One step of the round-robin loop body of `distribute_chunks`:
`self.chunk_assignments[worker_id].append(chunk_data)`. -/
def appendAssign (m : ℕ → Option (List (ℕ × String))) (w : ℕ) (x : ℕ × String) :
    ℕ → Option (List (ℕ × String)) :=
  fun w2 => if w2 = w then some ((m w).getD [] ++ [x]) else m w2

/-- Embeds `ParallelCoordinator.distribute_chunks`: empty lists are
created for workers `1..num_workers`, then each enumerated chunk is
appended to worker `(idx % num_workers) + 1`, and each worker's
progress record receives its assignment length as `total_chunks`. -/
def distribute_chunks (c : ParallelCoordinator) (chunks : List (ℕ × String)) :
    ParallelCoordinator :=
  let start : ℕ → Option (List (ℕ × String)) :=
    fun w => if 1 ≤ w ∧ w ≤ c.num_workers then some [] else c.chunk_assignments w
  let assigns := chunks.enum.foldl
    (fun m p => appendAssign m (p.1 % c.num_workers + 1) p.2) start
  { c with
    chunk_assignments := assigns
    worker_progress := c.worker_progress.map
      (fun q => (q.1, { q.2 with total_chunks := ((assigns q.1).getD []).length })) }

/-- Embeds `ParallelCoordinator.get_worker_assignment`:
`self.chunk_assignments.get(worker_id, [])`. -/
def get_worker_assignment (c : ParallelCoordinator) (worker_id : ℕ) :
    List (ℕ × String) :=
  (c.chunk_assignments worker_id).getD []

/-- Embeds `ParallelCoordinator._update_overall_stats`: recompute both
aggregates as sums over all `worker_progress` values. -/
def update_overall_stats (c : ParallelCoordinator) : ParallelCoordinator :=
  { c with
    overall_completed := (c.worker_progress.map (fun q => q.2.completed_chunks)).sum
    overall_failed := (c.worker_progress.map (fun q => q.2.failed_chunks)).sum }

/-- Embeds `ParallelCoordinator.update_worker_progress`: if the worker
id is present, overwrite its counters/status/time with the cumulative
values passed by the caller and recompute the aggregates. -/
def update_worker_progress (c : ParallelCoordinator) (worker_id completed fails : ℕ)
    (status : String) (now : ℚ) : ParallelCoordinator :=
  match c.worker_progress.lookup worker_id with
  | none => c
  | some pr =>
    update_overall_stats
      { c with
        worker_progress := c.worker_progress.map (fun q =>
          if q.1 = worker_id then
            (q.1, { pr with
              completed_chunks := completed
              failed_chunks := fails
              status := status
              last_update_time := now })
          else q) }

/-- Python `int()` truncation toward zero, on rationals. -/
def pytrunc (q : ℚ) : ℤ :=
  if q < 0 then -⌊-q⌋ else ⌊q⌋

/-- Python `%` on nonnegative-divisor rationals:
`a - b * floor(a / b)`. -/
def pymod (a b : ℚ) : ℚ :=
  a - b * ⌊a / b⌋

/-- Embeds the ETA formatting tail of
`ParallelCoordinator._calculate_eta` (the `if eta_seconds < 60` /
`< 3600` / hours-and-minutes cascade). -/
def format_eta (eta_seconds : ℚ) : String :=
  if eta_seconds < 60 then
    toString (pytrunc eta_seconds) ++ " sec"
  else if eta_seconds < 3600 then
    toString (pytrunc (eta_seconds / 60)) ++ " min"
  else
    toString (pytrunc (eta_seconds / 3600)) ++ " hr " ++
      toString (pytrunc (pymod eta_seconds 3600 / 60)) ++ " min"

/-- Embeds `ParallelCoordinator._calculate_eta`, with `time.time()`
passed explicitly as `now`. -/
def calculate_eta (c : ParallelCoordinator) (now : ℚ) : String :=
  if c.overall_completed = c.total_chunks then "Complete!"
  else if c.start_time = none ∨ c.overall_completed = 0 then "Calculating..."
  else
    let elapsed := now - c.start_time.getD 0
    let chunks_per_second := (c.overall_completed : ℚ) / elapsed
    let remaining_chunks := (c.total_chunks : ℚ) - (c.overall_completed : ℚ)
    if chunks_per_second = 0 then "Unknown"
    else format_eta (remaining_chunks / chunks_per_second)

/-! ### Round-robin distribution: supporting lemmas (claim C1) -/

theorem foldl_appendAssign (N : ℕ) (l : List (ℕ × (ℕ × String)))
    (m : ℕ → Option (List (ℕ × String))) (w : ℕ) (xs : List (ℕ × String))
    (hm : m w = some xs) :
    (l.foldl (fun m2 p => appendAssign m2 (p.1 % N + 1) p.2) m) w =
      some (xs ++ (l.filter (fun p => p.1 % N + 1 = w)).map Prod.snd) := by
  induction l generalizing m xs with
  | nil => simpa using hm
  | cons p t ih =>
    simp only [List.foldl_cons]
    by_cases hw : p.1 % N + 1 = w
    · have hm2 : (appendAssign m (p.1 % N + 1) p.2) w = some (xs ++ [p.2]) := by
        simp [appendAssign, hw, hm]
      rw [ih _ _ hm2]
      simp [List.filter_cons, hw]
    · have hm2 : (appendAssign m (p.1 % N + 1) p.2) w = some xs := by
        have hne : w ≠ p.1 % N + 1 := fun hc => hw hc.symm
        simp only [appendAssign]
        rw [if_neg hne, hm]
      rw [ih _ _ hm2]
      simp [List.filter_cons, hw]

theorem sum_map_ite (ks : List ℕ) (v c : ℕ) :
    (ks.map (fun kk => if v = kk then c else 0)).sum = ks.count v * c := by
  induction ks with
  | nil => simp
  | cons a t ih =>
    by_cases h : v = a
    · subst h
      simp [List.count_cons, ih, Nat.add_mul, Nat.add_comm]
    · have h2 : ¬ a = v := fun hc => h hc.symm
      simp [h, h2, List.count_cons, ih]

theorem flatten_filter_perm {α : Type} [DecidableEq α] (l : List α) (f : α → ℕ)
    (ks : List ℕ) (hnd : ks.Nodup) (hmem : ∀ a ∈ l, f a ∈ ks) :
    ((ks.map (fun kk => l.filter (fun a => f a = kk))).flatten).Perm l := by
  rw [List.perm_iff_count]
  intro b
  rw [List.count_flatten, List.map_map]
  have hstep : ∀ kk : ℕ,
      (l.filter (fun a => decide (f a = kk))).count b =
        if f b = kk then l.count b else 0 := by
    intro kk
    by_cases hfb : f b = kk
    · rw [if_pos hfb]
      exact List.count_filter (by simp [hfb])
    · rw [if_neg hfb]
      refine List.count_eq_zero.mpr ?_
      intro hmemf
      exact hfb (by simpa using List.of_mem_filter hmemf)
  have hmapeq :
      (ks.map (List.count b ∘ fun kk => l.filter (fun a => decide (f a = kk)))) =
        ks.map (fun kk => if f b = kk then l.count b else 0) := by
    refine List.map_congr_left ?_
    intro kk _
    exact hstep kk
  rw [hmapeq, sum_map_ite]
  by_cases hbl : b ∈ l
  · rw [List.count_eq_one_of_mem hnd (hmem b hbl)]
    omega
  · rw [List.count_eq_zero.mpr hbl]
    omega

/-- Claim C1: after `distribute_chunks` on a chunk list of length `L`
with `1 ≤ N ≤ L` workers, worker `k`'s assignment (for `1 ≤ k ≤ N`) is
exactly the subsequence of chunks at 1-based input positions
`k, k + N, k + 2N, ...` (0-based enumeration indices `j` with
`j % N = k - 1`) in input order; the `N` assignment lists together are
a permutation of the input (no duplicates, no omissions); and each
input position belongs to exactly one worker. -/
theorem c1_distribute_chunks_round_robin (chunks : List (ℕ × String)) (N k : ℕ)
    (now : ℚ) (hN : 1 ≤ N) (hNL : N ≤ chunks.length) (hk1 : 1 ≤ k) (hkN : k ≤ N) :
    get_worker_assignment (distribute_chunks (mkCoordinator chunks.length N now) chunks) k =
      (chunks.enum.filter (fun p => p.1 % N = k - 1)).map Prod.snd ∧
    (((List.range' 1 N).map (fun w =>
        get_worker_assignment
          (distribute_chunks (mkCoordinator chunks.length N now) chunks) w)).flatten).Perm
      chunks ∧
    (∀ j < chunks.length, ∃! w : ℕ, 1 ≤ w ∧ w ≤ N ∧ j % N = w - 1) := by
  have hassign : ∀ w, 1 ≤ w → w ≤ N →
      get_worker_assignment (distribute_chunks (mkCoordinator chunks.length N now) chunks) w =
        (chunks.enum.filter (fun p => p.1 % N + 1 = w)).map Prod.snd := by
    intro w hw1 hwN
    show ((chunks.enum.foldl (fun m p => appendAssign m (p.1 % N + 1) p.2)
      (fun w2 => if 1 ≤ w2 ∧ w2 ≤ N then some [] else none)) w).getD [] = _
    rw [foldl_appendAssign N chunks.enum _ w [] (by simp [hw1, hwN])]
    simp
  refine ⟨?_, ?_, ?_⟩
  · rw [hassign k hk1 hkN]
    congr 1
    refine List.filter_congr ?_
    intro p _
    simp only [decide_eq_decide]
    omega
  · have hmapeq :
        (List.range' 1 N).map (fun w =>
          get_worker_assignment
            (distribute_chunks (mkCoordinator chunks.length N now) chunks) w) =
        (List.range' 1 N).map (fun w =>
          (chunks.enum.filter (fun p => p.1 % N + 1 = w)).map Prod.snd) := by
      refine List.map_congr_left ?_
      intro w hw
      have hw2 := List.mem_range'_1.mp hw
      exact hassign w hw2.1 (by omega)
    rw [hmapeq]
    have hcomm :
        ((List.range' 1 N).map (fun w =>
          (chunks.enum.filter (fun p => p.1 % N + 1 = w)).map Prod.snd)).flatten =
        (((List.range' 1 N).map (fun w =>
          chunks.enum.filter (fun p => p.1 % N + 1 = w))).flatten).map Prod.snd := by
      rw [List.map_flatten, List.map_map]
      rfl
    rw [hcomm]
    have hperm := flatten_filter_perm chunks.enum (fun p => p.1 % N + 1)
      (List.range' 1 N) (List.nodup_range' ..)
      (by
        intro a _
        have hlt : a.1 % N < N := Nat.mod_lt _ (by omega)
        simp only [List.mem_range'_1]
        omega)
    have := hperm.map Prod.snd
    simpa [List.enum_map_snd] using this
  · intro j _
    refine ⟨j % N + 1, ⟨by omega, by have := Nat.mod_lt j (show 0 < N by omega); omega, by omega⟩, ?_⟩
    intro w hw
    omega

/-! ### Progress aggregation: supporting lemmas (claim C5) -/

/-- The field overwrite performed by `update_worker_progress` on a
progress record (cumulative counters, status and timestamp replaced;
identity and `total_chunks` kept). -/
def overwriteProgress (base : WorkerProgress) (completed fails : ℕ)
    (st : String) (now : ℚ) : WorkerProgress :=
  ⟨base.worker_id, base.total_chunks, completed, fails, st, now⟩

/-- Pointwise-function form of one accepted progress update. -/
def updFun (pr : ℕ → WorkerProgress) (w completed fails : ℕ) (st : String)
    (now : ℚ) : ℕ → WorkerProgress :=
  fun v => if v = w then overwriteProgress (pr w) completed fails st now else pr v

/-- A sequence of `update_worker_progress` calls, one per list entry
`(worker_id, completed, failed, status)`. -/
def applyUpdates (c : ParallelCoordinator) (updates : List (ℕ × ℕ × ℕ × String))
    (now : ℚ) : ParallelCoordinator :=
  updates.foldl (fun c2 u => update_worker_progress c2 u.1 u.2.1 u.2.2.1 u.2.2.2 now) c

/-- The completed count carried by the last update for worker `w`
(0 if `w` was never reported). -/
def lastReportedCompleted (updates : List (ℕ × ℕ × ℕ × String)) (w : ℕ) : ℕ :=
  match (updates.filter (fun u => u.1 = w)).getLast? with
  | some u => u.2.1
  | none => 0

/-- The failed count carried by the last update for worker `w`. -/
def lastReportedFailed (updates : List (ℕ × ℕ × ℕ × String)) (w : ℕ) : ℕ :=
  match (updates.filter (fun u => u.1 = w)).getLast? with
  | some u => u.2.2.1
  | none => 0

/-- Pointwise result of folding updates over the per-worker record map. -/
def foldPr (N : ℕ) (now : ℚ) (updates : List (ℕ × ℕ × ℕ × String))
    (pr : ℕ → WorkerProgress) : ℕ → WorkerProgress :=
  updates.foldl (fun pr2 u =>
    if 1 ≤ u.1 ∧ u.1 ≤ N then updFun pr2 u.1 u.2.1 u.2.2.1 u.2.2.2 now else pr2) pr

/-- Invariant relating a coordinator state to a per-worker record map:
the progress dict is exactly workers `1..N` and both aggregates are the
sums over it. -/
def ShapeInv (c : ParallelCoordinator) (N : ℕ) (pr : ℕ → WorkerProgress) : Prop :=
  c.worker_progress = (List.range' 1 N).map (fun v => (v, pr v)) ∧
  c.overall_completed = ((List.range' 1 N).map (fun v => (pr v).completed_chunks)).sum ∧
  c.overall_failed = ((List.range' 1 N).map (fun v => (pr v).failed_chunks)).sum

theorem lookup_range'_map {β : Type} (pr : ℕ → β) :
    ∀ (n s w : ℕ),
      (((List.range' s n).map (fun v => (v, pr v))).lookup w) =
        if s ≤ w ∧ w < s + n then some (pr w) else none := by
  intro n
  induction n with
  | zero =>
    intro s w
    rw [if_neg (by omega)]
    simp [List.range'_zero]
  | succ n ih =>
    intro s w
    rw [List.range'_succ]
    simp only [List.map_cons, List.lookup]
    by_cases hw : w = s
    · subst hw
      have hc : w ≤ w ∧ w < w + (n + 1) := by omega
      simp [hc]
    · have hbeq : (w == s) = false := by simp [hw]
      rw [hbeq]
      show List.lookup w ((List.range' (s + 1) n).map (fun v => (v, pr v))) = _
      rw [ih (s + 1) w]
      by_cases h1 : s + 1 ≤ w ∧ w < s + 1 + n
      · rw [if_pos h1, if_pos (by omega)]
      · rw [if_neg h1, if_neg (by omega)]

theorem shapeInv_mk (total N : ℕ) (now0 : ℚ) :
    ShapeInv (mkCoordinator total N now0) N (fun v => ⟨v, 0, 0, 0, "initializing", now0⟩) := by
  refine ⟨rfl, ?_, ?_⟩ <;>
  · show (0 : ℕ) = _
    induction N with
    | zero => simp
    | succ n ihr =>
      rw [List.range'_1_concat, List.map_append]
      simpa using ihr

theorem shapeInv_update (c : ParallelCoordinator) (N : ℕ) (pr : ℕ → WorkerProgress)
    (hinv : ShapeInv c N pr) (w completed fails : ℕ) (st : String) (now : ℚ) :
    ShapeInv (update_worker_progress c w completed fails st now) N
      (if 1 ≤ w ∧ w ≤ N then updFun pr w completed fails st now else pr) := by
  obtain ⟨hshape, hoc, hof⟩ := hinv
  have hlook : c.worker_progress.lookup w =
      if 1 ≤ w ∧ w ≤ N then some (pr w) else none := by
    rw [hshape, lookup_range'_map]
    by_cases h : 1 ≤ w ∧ w ≤ N
    · rw [if_pos (by omega), if_pos h]
    · rw [if_neg (by omega), if_neg h]
  by_cases h : 1 ≤ w ∧ w ≤ N
  · rw [if_pos h]
    have hlook2 : c.worker_progress.lookup w = some (pr w) := by rw [hlook, if_pos h]
    have hlist :
        c.worker_progress.map (fun q =>
          if q.1 = w then
            (q.1, { pr w with
              completed_chunks := completed
              failed_chunks := fails
              status := st
              last_update_time := now })
          else q) =
        (List.range' 1 N).map (fun v => (v, updFun pr w completed fails st now v)) := by
      rw [hshape, List.map_map]
      refine List.map_congr_left ?_
      intro v _
      by_cases hv : v = w
      · subst hv
        simp [updFun, overwriteProgress]
      · simp [Function.comp, hv, updFun]
    unfold update_worker_progress
    rw [hlook2]
    refine ⟨?_, ?_, ?_⟩ <;>
      simp only [update_overall_stats, hlist, List.map_map, Function.comp] <;> rfl
  · rw [if_neg h]
    have hlook2 : c.worker_progress.lookup w = none := by rw [hlook, if_neg h]
    unfold update_worker_progress
    rw [hlook2]
    exact ⟨hshape, hoc, hof⟩

theorem shapeInv_applyUpdates (N : ℕ) (now : ℚ) :
    ∀ (updates : List (ℕ × ℕ × ℕ × String)) (c : ParallelCoordinator)
      (pr : ℕ → WorkerProgress), ShapeInv c N pr →
      ShapeInv (applyUpdates c updates now) N (foldPr N now updates pr) := by
  intro updates
  induction updates with
  | nil => intro c pr h; exact h
  | cons u rest ih =>
    intro c pr h
    have hstep := shapeInv_update c N pr h u.1 u.2.1 u.2.2.1 u.2.2.2 now
    have := ih _ _ hstep
    simpa [applyUpdates, foldPr, List.foldl_cons] using this

theorem getLast?_cons_of_ne_nil {α : Type} (a : α) (l : List α) (h : l ≠ []) :
    (a :: l).getLast? = l.getLast? := by
  cases l with
  | nil => exact absurd rfl h
  | cons b t => exact List.getLast?_cons_cons ..

theorem foldPr_at (N : ℕ) (now : ℚ) (w : ℕ) (hw : 1 ≤ w ∧ w ≤ N) :
    ∀ (updates : List (ℕ × ℕ × ℕ × String)) (pr : ℕ → WorkerProgress),
      (foldPr N now updates pr) w =
        match (updates.filter (fun u => u.1 = w)).getLast? with
        | some u => overwriteProgress (pr w) u.2.1 u.2.2.1 u.2.2.2 now
        | none => pr w := by
  intro updates
  induction updates with
  | nil => intro pr; rfl
  | cons u rest ih =>
    intro pr
    by_cases hu : u.1 = w
    · have hrange : 1 ≤ u.1 ∧ u.1 ≤ N := by omega
      have hstep : foldPr N now (u :: rest) pr =
          foldPr N now rest (updFun pr u.1 u.2.1 u.2.2.1 u.2.2.2 now) := by
        simp [foldPr, hrange]
      rw [hstep, ih]
      have hbase : (updFun pr u.1 u.2.1 u.2.2.1 u.2.2.2 now) w =
          overwriteProgress (pr w) u.2.1 u.2.2.1 u.2.2.2 now := by
        subst hu
        simp [updFun]
      have hfilter : ((u :: rest).filter (fun v => v.1 = w)) =
          u :: rest.filter (fun v => v.1 = w) := by
        simp [List.filter_cons, hu]
      rw [hfilter]
      by_cases hrf : rest.filter (fun v => v.1 = w) = []
      · rw [hrf]
        simp [hbase]
      · rw [getLast?_cons_of_ne_nil _ _ hrf]
        rcases hlast : (rest.filter (fun v => v.1 = w)).getLast? with _ | u2
        · exact absurd (List.getLast?_eq_none_iff.mp hlast) hrf
        · rw [hlast]
          simp [hbase, overwriteProgress]
    · have hfilter : ((u :: rest).filter (fun v => v.1 = w)) =
          rest.filter (fun v => v.1 = w) := by
        simp [List.filter_cons, hu]
      by_cases hrange : 1 ≤ u.1 ∧ u.1 ≤ N
      · have hstep : foldPr N now (u :: rest) pr =
            foldPr N now rest (updFun pr u.1 u.2.1 u.2.2.1 u.2.2.2 now) := by
          simp [foldPr, hrange]
        rw [hstep, ih, hfilter]
        have hbase : (updFun pr u.1 u.2.1 u.2.2.1 u.2.2.2 now) w = pr w := by
          have hne : ¬ w = u.1 := fun hc => hu hc.symm
          simp [updFun, hne]
        rcases (rest.filter (fun v => v.1 = w)).getLast? with _ | u2 <;>
          simp [hbase]
      · have hstep : foldPr N now (u :: rest) pr = foldPr N now rest pr := by
          simp [foldPr, hrange]
        rw [hstep, ih, hfilter]

theorem applyUpdates_overall (total N : ℕ) (now0 now : ℚ)
    (updates : List (ℕ × ℕ × ℕ × String)) :
    (applyUpdates (mkCoordinator total N now0) updates now).overall_completed =
      ((List.range' 1 N).map (lastReportedCompleted updates)).sum ∧
    (applyUpdates (mkCoordinator total N now0) updates now).overall_failed =
      ((List.range' 1 N).map (lastReportedFailed updates)).sum := by
  have hinv := shapeInv_applyUpdates N now updates _ _ (shapeInv_mk total N now0)
  obtain ⟨hs, hoc, hof⟩ := hinv
  constructor
  · rw [hoc]
    congr 1
    refine List.map_congr_left ?_
    intro v hv
    have hv2 := List.mem_range'_1.mp hv
    rw [foldPr_at N now v ⟨hv2.1, by omega⟩]
    simp only [lastReportedCompleted]
    rcases h : ((updates.filter (fun u => u.1 = v)).getLast?) with _ | u <;> rw [h] <;> rfl
  · rw [hof]
    congr 1
    refine List.map_congr_left ?_
    intro v hv
    have hv2 := List.mem_range'_1.mp hv
    rw [foldPr_at N now v ⟨hv2.1, by omega⟩]
    simp only [lastReportedFailed]
    rcases h : ((updates.filter (fun u => u.1 = v)).getLast?) with _ | u <;> rw [h] <;> rfl

theorem lastReported_dup (updates : List (ℕ × ℕ × ℕ × String))
    (u : ℕ × ℕ × ℕ × String) (w : ℕ) :
    lastReportedCompleted (updates ++ [u, u]) w = lastReportedCompleted (updates ++ [u]) w ∧
    lastReportedFailed (updates ++ [u, u]) w = lastReportedFailed (updates ++ [u]) w := by
  have hlast : (((updates ++ [u, u]).filter (fun v => v.1 = w)).getLast?) =
      (((updates ++ [u]).filter (fun v => v.1 = w)).getLast?) := by
    rw [List.filter_append, List.filter_append]
    by_cases hu : u.1 = w
    · simp [List.filter_cons, hu, List.getLast?_append_cons]
    · simp [List.filter_cons, hu]
  simp only [lastReportedCompleted, lastReportedFailed]
  rw [hlast]
  exact ⟨rfl, rfl⟩

/-- Claim C5: after any sequence of `update_worker_progress` calls
carrying cumulative per-worker counts, the coordinator aggregates equal
the sum over workers `1..N` of the last count reported for each worker
(0 if never reported) — a quantity independent of the interleaving
order of distinct workers' calls — and repeating the final call with
the same cumulative values leaves both aggregates unchanged. -/
theorem c5_progress_never_double_counts (total N : ℕ) (now0 now : ℚ)
    (updates : List (ℕ × ℕ × ℕ × String)) :
    (applyUpdates (mkCoordinator total N now0) updates now).overall_completed =
      ((List.range' 1 N).map (lastReportedCompleted updates)).sum ∧
    (applyUpdates (mkCoordinator total N now0) updates now).overall_failed =
      ((List.range' 1 N).map (lastReportedFailed updates)).sum ∧
    ∀ u : ℕ × ℕ × ℕ × String,
      (applyUpdates (mkCoordinator total N now0) (updates ++ [u, u]) now).overall_completed =
        (applyUpdates (mkCoordinator total N now0) (updates ++ [u]) now).overall_completed ∧
      (applyUpdates (mkCoordinator total N now0) (updates ++ [u, u]) now).overall_failed =
        (applyUpdates (mkCoordinator total N now0) (updates ++ [u]) now).overall_failed := by
  refine ⟨(applyUpdates_overall total N now0 now updates).1,
    (applyUpdates_overall total N now0 now updates).2, ?_⟩
  intro u
  rw [(applyUpdates_overall total N now0 now (updates ++ [u, u])).1,
    (applyUpdates_overall total N now0 now (updates ++ [u])).1,
    (applyUpdates_overall total N now0 now (updates ++ [u, u])).2,
    (applyUpdates_overall total N now0 now (updates ++ [u])).2]
  constructor <;>
  · congr 1
    refine List.map_congr_left ?_
    intro v _
    first
      | exact (lastReported_dup updates u v).1
      | exact (lastReported_dup updates u v).2

/-- Concrete 12-chunk input used to witness claim C1. -/
def c1Chunks : List (ℕ × String) :=
  (List.range' 1 12).map (fun i => (i, ""))

/-- Witness for claim C1 at 12 chunks, 3 workers, worker 2. -/
theorem c1_round_robin_witness :
    (1 ≤ 3 ∧ 3 ≤ c1Chunks.length ∧ 1 ≤ 2 ∧ 2 ≤ 3) ∧
    (get_worker_assignment
        (distribute_chunks (mkCoordinator c1Chunks.length 3 0) c1Chunks) 2 =
      (c1Chunks.enum.filter (fun p => p.1 % 3 = 2 - 1)).map Prod.snd ∧
    (((List.range' 1 3).map (fun w =>
        get_worker_assignment
          (distribute_chunks (mkCoordinator c1Chunks.length 3 0) c1Chunks) w)).flatten).Perm
      c1Chunks ∧
    (∀ j < c1Chunks.length, ∃! w : ℕ, 1 ≤ w ∧ w ≤ 3 ∧ j % 3 = w - 1)) :=
  ⟨⟨by decide, by decide, by decide, by decide⟩,
    c1_distribute_chunks_round_robin c1Chunks 3 2 0 (by decide) (by decide)
      (by decide) (by decide)⟩

/-! ### ETA calculation (claim C9) -/

theorem append_sec_ne_complete (s : String) : s ++ " sec" ≠ "Complete!" := by
  intro h
  have h2 : strLast (s ++ " sec") = strLast "Complete!" := by rw [h]
  rw [show (" sec" : String) = String.mk (' ' :: ['s', 'e', 'c']) by decide] at h2
  rw [strLast_append_cons] at h2
  exact absurd h2 (by decide)

theorem append_min_ne_complete (s : String) : s ++ " min" ≠ "Complete!" := by
  intro h
  have h2 : strLast (s ++ " min") = strLast "Complete!" := by rw [h]
  rw [show (" min" : String) = String.mk (' ' :: ['m', 'i', 'n']) by decide] at h2
  rw [strLast_append_cons] at h2
  exact absurd h2 (by decide)

theorem format_eta_ne_complete (q : ℚ) : format_eta q ≠ "Complete!" := by
  simp only [format_eta]
  split_ifs
  · exact append_sec_ne_complete _
  · exact append_min_ne_complete _
  · exact append_min_ne_complete _

theorem calculate_eta_ne_complete (c : ParallelCoordinator) (now : ℚ)
    (hne : c.overall_completed ≠ c.total_chunks) :
    calculate_eta c now ≠ "Complete!" := by
  simp only [calculate_eta]
  rw [if_neg hne]
  split
  · decide
  · split
    · decide
    · exact format_eta_ne_complete _

/-- Claim C9: the ETA string is "Complete!" exactly when the overall
completed count equals the total; it is "Calculating..." whenever no
start time is recorded or nothing has completed (and the job is not
complete); otherwise (start time `t0 < now`, at least one completion)
it is the rendering of `remaining / (completed / elapsed)`. -/
theorem c9_eta_cases (c : ParallelCoordinator) (now : ℚ) :
    (calculate_eta c now = "Complete!" ↔ c.overall_completed = c.total_chunks) ∧
    (c.overall_completed ≠ c.total_chunks →
      (c.start_time = none ∨ c.overall_completed = 0) →
      calculate_eta c now = "Calculating...") ∧
    (∀ t0 : ℚ, c.start_time = some t0 → c.overall_completed ≠ c.total_chunks →
      c.overall_completed ≠ 0 → t0 < now →
      calculate_eta c now =
        format_eta (((c.total_chunks : ℚ) - (c.overall_completed : ℚ)) /
          ((c.overall_completed : ℚ) / (now - t0)))) := by
  refine ⟨⟨?_, ?_⟩, ?_, ?_⟩
  · intro h
    by_contra hne
    exact calculate_eta_ne_complete c now hne h
  · intro h
    simp only [calculate_eta]
    rw [if_pos h]
  · intro hne h2
    simp only [calculate_eta]
    rw [if_neg hne, if_pos h2]
  · intro t0 hst hne hc0 hlt
    have h2 : ¬ (c.start_time = none ∨ c.overall_completed = 0) := by
      rw [hst]
      simp [hc0]
    have hel : (0 : ℚ) < now - t0 := by linarith
    have hcpos : (0 : ℚ) < (c.overall_completed : ℚ) := by
      exact_mod_cast Nat.pos_of_ne_zero hc0
    have hcps : ((c.overall_completed : ℚ) / (now - t0)) ≠ 0 :=
      ne_of_gt (div_pos hcpos hel)
    simp only [calculate_eta]
    rw [if_neg hne, if_neg h2, hst]
    simp only [Option.getD_some]
    rw [if_neg hcps]

/-! ### Session request path
(src/main_playwright_persistent.py, src/worker_browser.py)

The remote endpoint and the page DOM are environments: each submission
attempt is classified by a `SubmitOutcome`, and `check_for_captcha`'s
DOM answer is an explicit boolean.  Delay/latency bookkeeping fields
(`base_delay`, `response_times`, ...) are omitted from the state: no
branch of `request_audio` depends on them.
-/

/-- Transport-level classification of one fetch in `request_audio`:
HTTP ok with an audio/mpeg body, status 429, status 403, or any other
failure (unexpected status, wrong content type, fetch error). -/
inductive SubmitOutcome : Type
  | success (audio : List ℕ)
  | tooManyRequests
  | forbidden
  | otherFailure
deriving DecidableEq

/-- The value of `audio_data` as produced by `request_audio`: audio
bytes, the "RATE_LIMIT" sentinel string, or Python `None`. -/
inductive AudioResult : Type
  | audio (b : List ℕ)
  | rateLimit
  | noneResult
deriving DecidableEq

/-- Session-state fields of `PersistentBrowser`/`WorkerBrowser` that
the request path reads or writes: the total request/success counters,
the rolling window `recent_results` (max 20 entries), and the worker's
`requests_since_captcha` counter. -/
structure SessionState where
  request_count : ℕ
  success_count : ℕ
  recent_results : List Bool
  requests_since_captcha : ℕ
deriving DecidableEq

/-- Embeds `PersistentBrowser.update_health`: append to the rolling
window (dropping the oldest entry past 20), bump `request_count`, and
bump `success_count` on success.  `requests_since_captcha` is not
touched anywhere in the request path. -/
def update_health (st : SessionState) (success : Bool) : SessionState :=
  let recent := st.recent_results ++ [success]
  { st with
    recent_results := if recent.length > 20 then recent.drop 1 else recent
    request_count := st.request_count + 1
    success_count := st.success_count + (if success then 1 else 0) }

/-- Session state immediately after `WorkerBrowser.initialize`
(worker_browser.py line 163 sets `requests_since_captcha = 0`; the
other counters start at zero in `__init__`). -/
def initWorkerSession : SessionState := ⟨0, 0, [], 0⟩

/-- Embeds `request_audio` with `retry_on_captcha=False`: if the DOM
shows a CAPTCHA, display a notification and return `None` without
pausing; otherwise submit and classify.  Result components: new state,
`audio_data`, and whether a human-verification pause (`input()`) was
driven. -/
def request_audio_noRetry (st : SessionState) (captchaOnPage : Bool)
    (outcome : SubmitOutcome) : SessionState × AudioResult × Bool :=
  if captchaOnPage then (st, .noneResult, false)
  else
    match outcome with
    | .success b => (update_health st true, .audio b, false)
    | .tooManyRequests => (update_health st false, .rateLimit, false)
    | .forbidden => (update_health st false, .noneResult, false)
    | .otherFailure => (update_health st false, .noneResult, false)

/-- Embeds `PersistentBrowser.request_audio` (default
`retry_on_captcha=True`).  `captchaOnPage`/`outcome` drive the primary
attempt; `captchaOnPage2`/`outcome2` drive the single recursive retry
performed after a verification pause (DOM CAPTCHA before send, or a
403 response).  Note: the function performs no comparison of
`requests_since_captcha` against any budget — the only pre-send gate is
the DOM CAPTCHA check. -/
def request_audio (st : SessionState) (captchaOnPage : Bool) (outcome : SubmitOutcome)
    (captchaOnPage2 : Bool) (outcome2 : SubmitOutcome) :
    SessionState × AudioResult × Bool :=
  if captchaOnPage then
    let r := request_audio_noRetry st captchaOnPage2 outcome2
    (r.1, r.2.1, true)
  else
    match outcome with
    | .success b => (update_health st true, .audio b, false)
    | .tooManyRequests => (update_health st false, .rateLimit, false)
    | .forbidden =>
        let r := request_audio_noRetry (update_health st false) captchaOnPage2 outcome2
        (r.1, r.2.1, true)
    | .otherFailure => (update_health st false, .noneResult, false)

/-- `n` consecutive `request_audio` calls, each with no CAPTCHA on the
page and a successful submission. -/
def runSuccesses : ℕ → SessionState → SessionState
  | 0, st => st
  | n + 1, st =>
      runSuccesses n (request_audio st false (.success [1]) false (.success [1])).1

/-! ### Worker chunk processing (src/worker_browser.py) -/

/-- Embeds the 3-attempt retry loop body of
`WorkerBrowser.process_assigned_chunks` for one chunk.  Input: the
`audio_data` outcomes of the successive attempts; the second argument
is the current value of `audio_data` (initially Python `None`).
Result: the final value of `audio_data` when the loop exits, the
number of attempts actually made, and the number of `self.restart()`
calls (one per rate-limited attempt). -/
def runChunkAux : List AudioResult → AudioResult → AudioResult × ℕ × ℕ
  | [], last => (last, 0, 0)
  | a :: rest, _ =>
    match a with
    | .audio b => (.audio b, 1, 0)
    | .rateLimit =>
        let r := runChunkAux rest .rateLimit
        (r.1, r.2.1 + 1, r.2.2 + 1)
    | .noneResult =>
        let r := runChunkAux rest .noneResult
        (r.1, r.2.1 + 1, r.2.2)

/-- The retry loop with `max_retries = 3` and `audio_data = None`
before the first attempt. -/
def runChunk (attempts : List AudioResult) : AudioResult × ℕ × ℕ :=
  runChunkAux attempts .noneResult

/-- Embeds the `dir_prefix` computation duplicated in
`process_assigned_chunks`, `process_chapters_to_speech` and
`analyze_progress`: first dash-separated part of the chapter directory
name, or the first two parts for `00-` front matter.  Python's
`str.split("-")` and `str.startswith("00-")` are embedded at the
character-list level. -/
def dirPref (dir_name : String) : String :=
  let parts := (dir_name.data.splitOn '-').map (fun cs => String.mk cs)
  if dir_name.data.take 3 = ['0', '0', '-'] then
    parts.getD 0 "" ++ "-" ++ parts.getD 1 ""
  else
    parts.getD 0 ""

/-- Embeds `os.path.join` for the two-component joins used here. -/
def ospath_join (a b : String) : String := a ++ "/" ++ b

/-- The artifact file name `f"{dir_prefix}-chunk-{chunk_idx}.mp3"`. -/
def chunkFileName (chapter_dir_name : String) (chunk_idx : ℕ) : String :=
  dirPref chapter_dir_name ++ "-chunk-" ++ toString chunk_idx ++ ".mp3"

/-- The worker-visible effects of `process_assigned_chunks`: the
`completed_chunks` and `failed_chunks` lists, the success counter, and
the artifact files written (path and bytes). -/
structure WorkerState where
  completed_chunks : List ℕ
  failed_chunks : List ℕ
  worker_success_count : ℕ
  files : List (String × List ℕ)
deriving DecidableEq

/-- Worker chunk bookkeeping at the start of
`process_assigned_chunks` (empty lists, zero counter). -/
def initWorkerState : WorkerState := ⟨[], [], 0, []⟩

/-- Embeds one iteration of the main loop of
`WorkerBrowser.process_assigned_chunks`: run the 3-attempt retry loop
(attempt outcomes given by `oracle chunk_idx attempt`); on audio bytes
write `<output_dir>/<chapter_dir_name>/<dir_prefix>-chunk-<idx>.mp3`
and append to `completed_chunks`; after the loop, append to
`failed_chunks` exactly when `audio_data` is `None` (`if not
audio_data:` — the truthy "RATE_LIMIT" sentinel does not qualify). -/
def processChunkStep (oracle : ℕ → ℕ → AudioResult)
    (output_dir chapter_dir_name : String) (st : WorkerState) (chunk : ℕ × String) :
    WorkerState :=
  match (runChunk [oracle chunk.1 0, oracle chunk.1 1, oracle chunk.1 2]).1 with
  | .audio b =>
      { st with
        files := st.files ++
          [(ospath_join (ospath_join output_dir chapter_dir_name)
              (chunkFileName chapter_dir_name chunk.1), b)]
        completed_chunks := st.completed_chunks ++ [chunk.1]
        worker_success_count := st.worker_success_count + 1 }
  | .rateLimit => st
  | .noneResult => { st with failed_chunks := st.failed_chunks ++ [chunk.1] }

/-- Embeds `WorkerBrowser.process_assigned_chunks` over the assigned
chunk list. -/
def process_assigned_chunks (oracle : ℕ → ℕ → AudioResult)
    (output_dir chapter_dir_name : String) (st : WorkerState)
    (assigned : List (ℕ × String)) : WorkerState :=
  assigned.foldl (processChunkStep oracle output_dir chapter_dir_name) st

/-- Final `audio_data` of the retry loop for a chunk index. -/
def chunkFinal (oracle : ℕ → ℕ → AudioResult) (idx : ℕ) : AudioResult :=
  (runChunk [oracle idx 0, oracle idx 1, oracle idx 2]).1

/-- Chunk indices of `l` whose retry loop ends in audio bytes. -/
def completedOf (oracle : ℕ → ℕ → AudioResult) (l : List (ℕ × String)) : List ℕ :=
  l.filterMap (fun ch => match chunkFinal oracle ch.1 with
    | .audio _ => some ch.1
    | _ => none)

/-- Chunk indices of `l` whose retry loop ends in `None`. -/
def failedOf (oracle : ℕ → ℕ → AudioResult) (l : List (ℕ × String)) : List ℕ :=
  l.filterMap (fun ch => match chunkFinal oracle ch.1 with
    | .noneResult => some ch.1
    | _ => none)

/-- Artifact files written while processing `l`. -/
def filesOf (oracle : ℕ → ℕ → AudioResult) (output_dir chapter_dir_name : String)
    (l : List (ℕ × String)) : List (String × List ℕ) :=
  l.filterMap (fun ch => match chunkFinal oracle ch.1 with
    | .audio b => some (ospath_join (ospath_join output_dir chapter_dir_name)
        (chunkFileName chapter_dir_name ch.1), b)
    | _ => none)

theorem process_characterize (oracle : ℕ → ℕ → AudioResult)
    (od cdn : String) :
    ∀ (l : List (ℕ × String)) (st : WorkerState),
      process_assigned_chunks oracle od cdn st l =
        ⟨st.completed_chunks ++ completedOf oracle l,
         st.failed_chunks ++ failedOf oracle l,
         st.worker_success_count + (completedOf oracle l).length,
         st.files ++ filesOf oracle od cdn l⟩ := by
  intro l
  induction l with
  | nil => intro st; simp [process_assigned_chunks, completedOf, failedOf, filesOf]
  | cons ch rest ih =>
    intro st
    show process_assigned_chunks oracle od cdn
      (processChunkStep oracle od cdn st ch) rest = _
    rw [ih]
    have hfold : (runChunkAux [oracle ch.1 0, oracle ch.1 1, oracle ch.1 2]
        AudioResult.noneResult).1 = chunkFinal oracle ch.1 := rfl
    rcases hfin : chunkFinal oracle ch.1 with b | _ | _ <;>
      simp [processChunkStep, runChunk, hfold, hfin, completedOf, failedOf,
        filesOf, List.filterMap_cons, List.append_assoc, Nat.add_assoc,
        Nat.add_comm, Nat.add_left_comm]

/-- Coordinator state used to witness claim C9: 10 chunks total, 4
completed, start time 0. -/
def c9Coord : ParallelCoordinator :=
  { mkCoordinator 10 2 0 with overall_completed := 4, start_time := some 0 }

/-- Witness for claim C9 at a concrete mid-run coordinator state. -/
theorem c9_eta_witness :
    (calculate_eta c9Coord 2 = "Complete!" ↔
      c9Coord.overall_completed = c9Coord.total_chunks) ∧
    (c9Coord.start_time = some 0 ∧ c9Coord.overall_completed ≠ c9Coord.total_chunks ∧
      c9Coord.overall_completed ≠ 0 ∧ (0 : ℚ) < 2) ∧
    calculate_eta c9Coord 2 =
      format_eta (((c9Coord.total_chunks : ℚ) - (c9Coord.overall_completed : ℚ)) /
        ((c9Coord.overall_completed : ℚ) / (2 - 0))) :=
  ⟨(c9_eta_cases c9Coord 2).1,
    ⟨rfl, by decide, by decide, by norm_num⟩,
    (c9_eta_cases c9Coord 2).2.2 0 rfl (by decide) (by decide) (by norm_num)⟩

/-- Claim C2 (code-bug evidence): starting from a freshly initialized
worker session, 55 consecutive successful submissions leave
`requests_since_captcha` at 0 (the counter is never incremented), and
the 56th call submits and returns audio with no verification pause —
there is no `requests_since_captcha >= captcha_budget` check anywhere
on the request path, for any value of the counter. -/
theorem c2_no_proactive_captcha_check :
    (runSuccesses 55 initWorkerSession).requests_since_captcha = 0 ∧
    (runSuccesses 55 initWorkerSession).success_count = 55 ∧
    (request_audio (runSuccesses 55 initWorkerSession) false (.success [1]) false
        (.success [1])).2.2 = false ∧
    (request_audio (runSuccesses 55 initWorkerSession) false (.success [1]) false
        (.success [1])).2.1 = .audio [1] ∧
    ∀ n : ℕ,
      (request_audio
          { runSuccesses 55 initWorkerSession with requests_since_captcha := n }
          false (.success [1]) false (.success [1])).2.1 = .audio [1] ∧
      (request_audio
          { runSuccesses 55 initWorkerSession with requests_since_captcha := n }
          false (.success [1]) false (.success [1])).2.2 = false := by
  refine ⟨by decide, by decide, by decide, by decide, ?_⟩
  intro n
  exact ⟨rfl, rfl⟩

/-- Counterexample to claim C3: a chunk whose three attempts all
return the "RATE_LIMIT" sentinel is moved past by
`process_assigned_chunks` and recorded in neither `completed_chunks`
nor `failed_chunks` (after the loop, `if not audio_data:` is false
because the sentinel string is truthy). -/
theorem c3_rate_limit_counterexample :
    (process_assigned_chunks (fun _ _ => AudioResult.rateLimit) "audio/book"
        "01-chapter" initWorkerState [(1, "text")]).completed_chunks = [] ∧
    (process_assigned_chunks (fun _ _ => AudioResult.rateLimit) "audio/book"
        "01-chapter" initWorkerState [(1, "text")]).failed_chunks = [] :=
  ⟨rfl, rfl⟩

/-- Claim C3 (amended): each RATE_LIMIT result triggers a session
restart, and the chunk is re-attempted as long as the 3-attempt budget
lasts (all three attempts are made, one restart per rate-limited
attempt); but a chunk whose three attempts all return RATE_LIMIT is
moved past — subsequent chunks are still processed — while appearing
in neither the completed nor the failed list. -/
theorem c3_amended_rate_limit_retry (oracle : ℕ → ℕ → AudioResult)
    (od cdn : String) (pre post : List (ℕ × String)) (idx : ℕ) (text : String)
    (h0 : oracle idx 0 = .rateLimit) (h1 : oracle idx 1 = .rateLimit)
    (h2 : oracle idx 2 = .rateLimit) :
    (process_assigned_chunks oracle od cdn initWorkerState
        (pre ++ (idx, text) :: post)).completed_chunks =
      completedOf oracle pre ++ completedOf oracle post ∧
    (process_assigned_chunks oracle od cdn initWorkerState
        (pre ++ (idx, text) :: post)).failed_chunks =
      failedOf oracle pre ++ failedOf oracle post ∧
    (runChunk [oracle idx 0, oracle idx 1, oracle idx 2]).2.1 = 3 ∧
    (runChunk [oracle idx 0, oracle idx 1, oracle idx 2]).2.2 = 3 := by
  have hfin : chunkFinal oracle idx = .rateLimit := by
    simp [chunkFinal, runChunk, runChunkAux, h0, h1, h2]
  rw [process_characterize oracle od cdn]
  refine ⟨?_, ?_, ?_, ?_⟩
  · simp [completedOf, List.filterMap_append, List.filterMap_cons, hfin,
      initWorkerState]
  · simp [failedOf, List.filterMap_append, List.filterMap_cons, hfin,
      initWorkerState]
  · simp [runChunk, runChunkAux, h0, h1, h2]
  · simp [runChunk, runChunkAux, h0, h1, h2]

/-- Oracle used to witness the amended claim C3: chunk 2 is always
rate-limited; other chunks succeed. -/
def c3Oracle : ℕ → ℕ → AudioResult := fun idx _ =>
  if idx = 2 then .rateLimit else .audio [7]

/-- Witness for the amended claim C3 at a concrete 3-chunk assignment. -/
theorem c3_amended_witness :
    (c3Oracle 2 0 = .rateLimit ∧ c3Oracle 2 1 = .rateLimit ∧
      c3Oracle 2 2 = .rateLimit) ∧
    ((process_assigned_chunks c3Oracle "audio/book" "01-chapter" initWorkerState
        ([(1, "a")] ++ (2, "b") :: [(3, "c")])).completed_chunks =
      completedOf c3Oracle [(1, "a")] ++ completedOf c3Oracle [(3, "c")] ∧
    (process_assigned_chunks c3Oracle "audio/book" "01-chapter" initWorkerState
        ([(1, "a")] ++ (2, "b") :: [(3, "c")])).failed_chunks =
      failedOf c3Oracle [(1, "a")] ++ failedOf c3Oracle [(3, "c")] ∧
    (runChunk [c3Oracle 2 0, c3Oracle 2 1, c3Oracle 2 2]).2.1 = 3 ∧
    (runChunk [c3Oracle 2 0, c3Oracle 2 1, c3Oracle 2 2]).2.2 = 3) :=
  ⟨⟨rfl, rfl, rfl⟩,
    c3_amended_rate_limit_retry c3Oracle "audio/book" "01-chapter"
      [(1, "a")] [(3, "c")] 2 "b" rfl rfl rfl⟩

theorem mem_completedOf {oracle : ℕ → ℕ → AudioResult} {l : List (ℕ × String)}
    {a : ℕ} (h : a ∈ completedOf oracle l) : a ∈ l.map Prod.fst := by
  unfold completedOf at h
  obtain ⟨x, hx, hfx⟩ := List.mem_filterMap.mp h
  rcases hcf : chunkFinal oracle x.1 with b | _ | _ <;> rw [hcf] at hfx <;>
    simp at hfx
  exact List.mem_map.mpr ⟨x, hx, hfx⟩

theorem mem_failedOf {oracle : ℕ → ℕ → AudioResult} {l : List (ℕ × String)}
    {a : ℕ} (h : a ∈ failedOf oracle l) : a ∈ l.map Prod.fst := by
  unfold failedOf at h
  obtain ⟨x, hx, hfx⟩ := List.mem_filterMap.mp h
  rcases hcf : chunkFinal oracle x.1 with b | _ | _ <;> rw [hcf] at hfx <;>
    simp at hfx
  exact List.mem_map.mpr ⟨x, hx, hfx⟩

/-- Claim C4: a chunk whose three attempts all fail with a
non-rate-limit failure is appended to `failed_chunks` exactly once,
never to `completed_chunks`, and the worker continues processing the
rest of its assignment (the other chunks' outcomes are exactly those
of their own retry loops). -/
theorem c4_retry_exhaustion_recorded_once (oracle : ℕ → ℕ → AudioResult)
    (od cdn : String) (pre post : List (ℕ × String)) (idx : ℕ) (text : String)
    (h0 : oracle idx 0 = .noneResult) (h1 : oracle idx 1 = .noneResult)
    (h2 : oracle idx 2 = .noneResult)
    (hpre : idx ∉ pre.map Prod.fst) (hpost : idx ∉ post.map Prod.fst) :
    (process_assigned_chunks oracle od cdn initWorkerState
        (pre ++ (idx, text) :: post)).failed_chunks =
      failedOf oracle pre ++ idx :: failedOf oracle post ∧
    (process_assigned_chunks oracle od cdn initWorkerState
        (pre ++ (idx, text) :: post)).completed_chunks =
      completedOf oracle pre ++ completedOf oracle post ∧
    (process_assigned_chunks oracle od cdn initWorkerState
        (pre ++ (idx, text) :: post)).failed_chunks.count idx = 1 ∧
    idx ∉ (process_assigned_chunks oracle od cdn initWorkerState
        (pre ++ (idx, text) :: post)).completed_chunks := by
  have hfin : chunkFinal oracle idx = .noneResult := by
    simp [chunkFinal, runChunk, runChunkAux, h0, h1, h2]
  have hfailed :
      (process_assigned_chunks oracle od cdn initWorkerState
        (pre ++ (idx, text) :: post)).failed_chunks =
      failedOf oracle pre ++ idx :: failedOf oracle post := by
    rw [process_characterize oracle od cdn]
    simp [failedOf, List.filterMap_append, List.filterMap_cons, hfin,
      initWorkerState]
  have hcompleted :
      (process_assigned_chunks oracle od cdn initWorkerState
        (pre ++ (idx, text) :: post)).completed_chunks =
      completedOf oracle pre ++ completedOf oracle post := by
    rw [process_characterize oracle od cdn]
    simp [completedOf, List.filterMap_append, List.filterMap_cons, hfin,
      initWorkerState]
  refine ⟨hfailed, hcompleted, ?_, ?_⟩
  · rw [hfailed]
    have hc1 : (failedOf oracle pre).count idx = 0 :=
      List.count_eq_zero.mpr (fun hmem => hpre (mem_failedOf hmem))
    have hc2 : (failedOf oracle post).count idx = 0 :=
      List.count_eq_zero.mpr (fun hmem => hpost (mem_failedOf hmem))
    simp [List.count_append, List.count_cons, hc1, hc2]
  · rw [hcompleted]
    intro hmem
    rcases List.mem_append.mp hmem with hmem2 | hmem2
    · exact hpre (mem_completedOf hmem2)
    · exact hpost (mem_completedOf hmem2)

/-- Oracle used to witness claim C4: chunk 2 always fails with a
non-rate-limit failure; other chunks succeed. -/
def c4Oracle : ℕ → ℕ → AudioResult := fun idx _ =>
  if idx = 2 then .noneResult else .audio [7]

/-- Witness for claim C4 at a concrete 3-chunk assignment. -/
theorem c4_retry_exhaustion_witness :
    (c4Oracle 2 0 = .noneResult ∧ c4Oracle 2 1 = .noneResult ∧
      c4Oracle 2 2 = .noneResult ∧ 2 ∉ ([(1, "a")] : List (ℕ × String)).map Prod.fst ∧
      2 ∉ ([(3, "c")] : List (ℕ × String)).map Prod.fst) ∧
    ((process_assigned_chunks c4Oracle "audio/book" "01-chapter" initWorkerState
        ([(1, "a")] ++ (2, "b") :: [(3, "c")])).failed_chunks =
      failedOf c4Oracle [(1, "a")] ++ 2 :: failedOf c4Oracle [(3, "c")] ∧
    (process_assigned_chunks c4Oracle "audio/book" "01-chapter" initWorkerState
        ([(1, "a")] ++ (2, "b") :: [(3, "c")])).completed_chunks =
      completedOf c4Oracle [(1, "a")] ++ completedOf c4Oracle [(3, "c")] ∧
    (process_assigned_chunks c4Oracle "audio/book" "01-chapter" initWorkerState
        ([(1, "a")] ++ (2, "b") :: [(3, "c")])).failed_chunks.count 2 = 1 ∧
    2 ∉ (process_assigned_chunks c4Oracle "audio/book" "01-chapter" initWorkerState
        ([(1, "a")] ++ (2, "b") :: [(3, "c")])).completed_chunks) :=
  ⟨⟨rfl, rfl, rfl, by decide, by decide⟩,
    c4_retry_exhaustion_recorded_once c4Oracle "audio/book" "01-chapter"
      [(1, "a")] [(3, "c")] 2 "b" rfl rfl rfl (by decide) (by decide)⟩

/-! ### Checkpoint/resume analysis (src/main_document_mode.py) -/

/-- The `Chapter` fields used by `analyze_progress` and the parallel
pipeline. -/
structure Chapter where
  number : ℕ
  title : String
  dir_name : String
  chunks : List String
deriving DecidableEq

/-- The filesystem as observed through `os.path.exists` and
`os.path.getsize`. -/
structure FileSystem where
  pathExists : String → Bool
  getsize : String → ℕ

/-- Embeds the per-chapter body of `analyze_progress`: missing chapter
directory ⇒ all chunks missing; else a non-empty chapter-level
`<dir_name>.mp3` ⇒ all chunks complete; else each chunk file
`<dir_prefix>-chunk-<i>.mp3` (for `i` in `1..len(chunks)`) is checked
for presence and non-zero size. -/
def analyzeChapter (fs : FileSystem) (base_directory : String) (ch : Chapter) :
    ℕ × List (ℕ × ℕ) :=
  let chapter_dir := ospath_join base_directory ch.dir_name
  if ¬ fs.pathExists chapter_dir then
    (0, (List.range' 1 ch.chunks.length).map (fun i => (ch.number, i)))
  else
    let concatenated_file := ospath_join chapter_dir (ch.dir_name ++ ".mp3")
    if fs.pathExists concatenated_file ∧ fs.getsize concatenated_file > 0 then
      (ch.chunks.length, [])
    else
      ((List.range' 1 ch.chunks.length).countP (fun i =>
          fs.pathExists (ospath_join chapter_dir (chunkFileName ch.dir_name i)) ∧
          fs.getsize (ospath_join chapter_dir (chunkFileName ch.dir_name i)) > 0),
        ((List.range' 1 ch.chunks.length).filter (fun i =>
          ¬ (fs.pathExists (ospath_join chapter_dir (chunkFileName ch.dir_name i)) ∧
             fs.getsize (ospath_join chapter_dir (chunkFileName ch.dir_name i)) > 0))).map
          (fun i => (ch.number, i)))

/-- Embeds `analyze_progress`: returns
`(completed_chunks, total_chunks, missing_chunks)`. -/
def analyze_progress (fs : FileSystem) (base_directory : String)
    (chapters : List Chapter) : ℕ × ℕ × List (ℕ × ℕ) :=
  let total_chunks := (chapters.map (fun ch => ch.chunks.length)).sum
  let res := chapters.foldl (fun acc ch =>
    let r := analyzeChapter fs base_directory ch
    (acc.1 + r.1, acc.2 ++ r.2)) ((0 : ℕ), ([] : List (ℕ × ℕ)))
  (res.1, total_chunks, res.2)

theorem foldl_acc_pair {α : Type} (f : α → ℕ) (g : α → List (ℕ × ℕ)) :
    ∀ (l : List α) (a : ℕ) (b : List (ℕ × ℕ)),
      (l.foldl (fun acc ch => (acc.1 + f ch, acc.2 ++ g ch)) (a, b)) =
        (a + (l.map f).sum, b ++ (l.map g).flatten) := by
  intro l
  induction l with
  | nil => intro a b; simp
  | cons ch rest ih =>
    intro a b
    rw [List.foldl_cons, ih]
    simp [Nat.add_assoc]

theorem analyze_progress_eq (fs : FileSystem) (base : String)
    (chapters : List Chapter) :
    analyze_progress fs base chapters =
      ((chapters.map (fun ch => (analyzeChapter fs base ch).1)).sum,
        (chapters.map (fun ch => ch.chunks.length)).sum,
        (chapters.map (fun ch => (analyzeChapter fs base ch).2)).flatten) := by
  unfold analyze_progress
  rw [foldl_acc_pair (fun ch => (analyzeChapter fs base ch).1)
    (fun ch => (analyzeChapter fs base ch).2) chapters 0 []]
  simp

/-- Claim C6: if a chapter's concatenated artifact exists and is
non-empty, `analyze_progress` counts all of that chapter's chunks as
complete and contributes none of them to the missing list, regardless
of the individual chunk files; per-chapter form plus the whole-run
decomposition. -/
theorem c6_chapter_fast_path (fs : FileSystem) (base : String)
    (pre post : List Chapter) (ch : Chapter)
    (hdir : fs.pathExists (ospath_join base ch.dir_name) = true)
    (hconcat : fs.pathExists
      (ospath_join (ospath_join base ch.dir_name) (ch.dir_name ++ ".mp3")) = true)
    (hsize : fs.getsize
      (ospath_join (ospath_join base ch.dir_name) (ch.dir_name ++ ".mp3")) > 0) :
    analyzeChapter fs base ch = (ch.chunks.length, []) ∧
    (analyze_progress fs base (pre ++ ch :: post)).1 =
      (pre.map (fun c2 => (analyzeChapter fs base c2).1)).sum + ch.chunks.length +
        (post.map (fun c2 => (analyzeChapter fs base c2).1)).sum ∧
    (analyze_progress fs base (pre ++ ch :: post)).2.2 =
      (pre.map (fun c2 => (analyzeChapter fs base c2).2)).flatten ++
        (post.map (fun c2 => (analyzeChapter fs base c2).2)).flatten := by
  have hch : analyzeChapter fs base ch = (ch.chunks.length, []) := by
    unfold analyzeChapter
    rw [if_neg (by simp [hdir]), if_pos (by simp [hconcat, hsize])]
  refine ⟨hch, ?_, ?_⟩ <;>
  · rw [analyze_progress_eq]
    simp [hch, Nat.add_assoc]

/-- Filesystem used to witness claim C6: the chapter directory and a
non-empty concatenated chapter file exist; no chunk files exist. -/
def c6Fs : FileSystem :=
  { pathExists := fun p =>
      p == "audio/book/02-intro" || p == "audio/book/02-intro/02-intro.mp3"
    getsize := fun p => if p = "audio/book/02-intro/02-intro.mp3" then 5 else 0 }

/-- Chapter used to witness claim C6. -/
def c6Chapter : Chapter := ⟨2, "Intro", "02-intro", ["t1", "t2"]⟩

/-- Witness for claim C6 with an empty-chunk-file filesystem. -/
theorem c6_chapter_fast_path_witness :
    (c6Fs.pathExists (ospath_join "audio/book" c6Chapter.dir_name) = true ∧
      c6Fs.pathExists (ospath_join (ospath_join "audio/book" c6Chapter.dir_name)
        (c6Chapter.dir_name ++ ".mp3")) = true ∧
      c6Fs.getsize (ospath_join (ospath_join "audio/book" c6Chapter.dir_name)
        (c6Chapter.dir_name ++ ".mp3")) > 0) ∧
    (analyzeChapter c6Fs "audio/book" c6Chapter = (c6Chapter.chunks.length, []) ∧
    (analyze_progress c6Fs "audio/book" ([] ++ c6Chapter :: [])).1 =
      (([] : List Chapter).map (fun c2 => (analyzeChapter c6Fs "audio/book" c2).1)).sum +
        c6Chapter.chunks.length +
        (([] : List Chapter).map (fun c2 => (analyzeChapter c6Fs "audio/book" c2).1)).sum ∧
    (analyze_progress c6Fs "audio/book" ([] ++ c6Chapter :: [])).2.2 =
      (([] : List Chapter).map (fun c2 => (analyzeChapter c6Fs "audio/book" c2).2)).flatten ++
        (([] : List Chapter).map (fun c2 => (analyzeChapter c6Fs "audio/book" c2).2)).flatten) :=
  ⟨⟨by decide, by decide, by decide⟩,
    c6_chapter_fast_path c6Fs "audio/book" [] [] c6Chapter (by decide) (by decide)
      (by decide)⟩

/-! ### Final summary and post-processing gate
(src/main_document_mode.py, end of process_chapters_to_speech) -/

/-- The observable outcome of the final-summary block: the failed
pairs printed (printed only when the list is nonempty) and whether M4B
post-processing is invoked. -/
structure RunSummary where
  reported_failed : List (ℕ × ℕ)
  post_processing_invoked : Bool
deriving DecidableEq

/-- Embeds the tail of `process_chapters_to_speech`: `if failed_chunks:`
print them; then `if success_count == total_chunks and not
failed_chunks:` create the M4B audiobook, else skip it. -/
def finalize_run (success_count total_chunks : ℕ)
    (failed_chunks : List (ℕ × ℕ)) : RunSummary :=
  { reported_failed := if failed_chunks.isEmpty then [] else failed_chunks
    post_processing_invoked :=
      success_count == total_chunks && failed_chunks.isEmpty }

/-- Claim C8: post-processing is invoked iff the success count equals
the total chunk count and the failed list is empty; whenever the
failed list is nonempty, post-processing is skipped and exactly the
failed (chapter, chunk) pairs are reported. -/
theorem c8_postprocessing_iff_complete (success_count total_chunks : ℕ)
    (failed_chunks : List (ℕ × ℕ)) :
    ((finalize_run success_count total_chunks failed_chunks).post_processing_invoked =
        true ↔ (success_count = total_chunks ∧ failed_chunks = [])) ∧
    (failed_chunks ≠ [] →
      (finalize_run success_count total_chunks failed_chunks).post_processing_invoked =
        false ∧
      (finalize_run success_count total_chunks failed_chunks).reported_failed =
        failed_chunks) := by
  constructor
  · simp [finalize_run]
  · intro hne
    constructor
    · simp [finalize_run, hne]
    · simp [finalize_run, hne]

/-- Witness for claim C8 at a run with one failed chunk. -/
theorem c8_postprocessing_witness :
    (([((1 : ℕ), (2 : ℕ))] : List (ℕ × ℕ)) ≠ []) ∧
    ((finalize_run 3 5 [(1, 2)]).post_processing_invoked = true ↔
      ((3 : ℕ) = 5 ∧ ([((1 : ℕ), (2 : ℕ))] : List (ℕ × ℕ)) = [])) ∧
    (finalize_run 3 5 [(1, 2)]).post_processing_invoked = false ∧
    (finalize_run 3 5 [(1, 2)]).reported_failed = [(1, 2)] :=
  ⟨by decide, (c8_postprocessing_iff_complete 3 5 [(1, 2)]).1,
    ((c8_postprocessing_iff_complete 3 5 [(1, 2)]).2 (by decide)).1,
    ((c8_postprocessing_iff_complete 3 5 [(1, 2)]).2 (by decide)).2⟩

/-! ### Worker wrapper and result gathering
(src/main_document_mode_parallel.py) -/

/-- One chapter-level result dict returned by
`process_assigned_chunks` inside the wrapper loop. -/
structure ChapterRunRecord where
  worker_id : ℕ
  completed : List ℕ
  failed : List ℕ
deriving DecidableEq

/-- The dict returned by `worker_process_wrapper`: either
`status: "success"` with per-chapter results, or `status: "failed"`
with the error message. -/
structure WrapperResult where
  worker_id : ℕ
  status : String
  error : Option String
  results : List ChapterRunRecord
deriving DecidableEq

/-- The `{"worker_id": ..., "status": "failed", "error": str(e)}` dict. -/
def failedWrapperResult (wid : ℕ) (e : String) : WrapperResult :=
  ⟨wid, "failed", some e, []⟩

/-- The `{"worker_id": ..., "status": "success", "results": ...}` dict. -/
def successWrapperResult (wid : ℕ) (rs : List ChapterRunRecord) : WrapperResult :=
  ⟨wid, "success", none, rs⟩

/-- The per-chapter loop of `worker_process_wrapper`: chapter groups
are processed in order; a raised exception aborts the loop and
propagates to the surrounding `try`. -/
def runChapters (f : ℕ → Except String ChapterRunRecord) :
    List ℕ → Except String (List ChapterRunRecord)
  | [] => .ok []
  | c :: rest =>
    match f c with
    | .error e => .error e
    | .ok r =>
      match runChapters f rest with
      | .error e => .error e
      | .ok rs => .ok (r :: rs)

/-- Embeds `worker_process_wrapper`'s `try/except Exception/finally`:
the body (initialization, then the chapter loop) is guarded by the
`except`, which converts an exception into a "failed" result dict; the
`finally` then runs `worker.cleanup()`, and an exception raised there
propagates out of the wrapper, discarding the pending result. -/
def worker_process_wrapper (wid : ℕ) (ini : Except String Unit)
    (f : ℕ → Except String ChapterRunRecord) (chapters : List ℕ)
    (cleanup : Except String Unit) : Except String WrapperResult :=
  let body : WrapperResult :=
    match ini with
    | .error e => failedWrapperResult wid e
    | .ok _ =>
      match runChapters f chapters with
      | .error e => failedWrapperResult wid e
      | .ok rs => successWrapperResult wid rs
  match cleanup with
  | .error ce => .error ce
  | .ok _ => .ok body

/-- An entry of the list returned by
`asyncio.gather(..., return_exceptions=True)` in
`run_parallel_processing`: a worker's result dict, or the exception
value it escaped with. -/
inductive GatherItem : Type
  | result (r : WrapperResult)
  | exception (msg : String)
deriving DecidableEq

/-- Embeds `asyncio.gather(*tasks, return_exceptions=True)`: every
task contributes exactly one entry; an escaped exception becomes a
value in the results list instead of cancelling the sibling tasks. -/
def gather_return_exceptions (ws : List (Except String WrapperResult)) :
    List GatherItem :=
  ws.map (fun w => match w with
    | .ok r => .result r
    | .error e => .exception e)

/-- Counterexample to claim C7: with initialization and chunk
processing succeeding, an exception raised during cleanup (the
`finally` block) propagates out of `worker_process_wrapper` instead of
being converted into a status-"failed" result record. -/
theorem c7_cleanup_exception_counterexample :
    worker_process_wrapper 1 (.ok ()) (fun c => .ok ⟨1, [c], []⟩) [1]
      (.error "browser close failed") = Except.error "browser close failed" :=
  rfl

/-- Claim C7 (amended): an exception raised during initialization or
chunk processing is caught at the wrapper boundary and converted into
a status-"failed" result with the error message (provided cleanup
succeeds); an exception escaping the wrapper (e.g. from cleanup) is
absorbed by `gather(..., return_exceptions=True)`, whose output is
pointwise in the workers' outcomes, so sibling workers' entries are
unaffected. -/
theorem c7_amended_exception_boundary (wid : ℕ) (e : String)
    (f : ℕ → Except String ChapterRunRecord) (chapters : List ℕ) :
    worker_process_wrapper wid (.error e) f chapters (.ok ()) =
      .ok (failedWrapperResult wid e) ∧
    (runChapters f chapters = .error e →
      worker_process_wrapper wid (.ok ()) f chapters (.ok ()) =
        .ok (failedWrapperResult wid e)) ∧
    ∀ (ws : List (Except String WrapperResult)) (i : ℕ),
      (gather_return_exceptions ws)[i]? =
        (ws[i]?).map (fun w => match w with
          | .ok r => GatherItem.result r
          | .error e2 => GatherItem.exception e2) := by
  refine ⟨rfl, ?_, ?_⟩
  · intro h
    simp [worker_process_wrapper, h]
  · intro ws i
    simp [gather_return_exceptions, List.getElem?_map]

/-- Witness for the amended claim C7 at concrete failing phases. -/
theorem c7_amended_witness :
    (runChapters (fun _ => (Except.error "boom" : Except String ChapterRunRecord)) [1] =
      Except.error "boom") ∧
    worker_process_wrapper 4 (Except.error "boom")
        (fun _ => (Except.error "boom" : Except String ChapterRunRecord)) [1]
        (Except.ok ()) = Except.ok (failedWrapperResult 4 "boom") ∧
    worker_process_wrapper 4 (Except.ok ())
        (fun _ => (Except.error "boom" : Except String ChapterRunRecord)) [1]
        (Except.ok ()) = Except.ok (failedWrapperResult 4 "boom") ∧
    (gather_return_exceptions
        [Except.error "x", Except.ok (successWrapperResult 2 [])])[0]? =
      (([Except.error "x", Except.ok (successWrapperResult 2 [])] :
          List (Except String WrapperResult))[0]?).map (fun w => match w with
        | .ok r => GatherItem.result r
        | .error e2 => GatherItem.exception e2) :=
  ⟨rfl,
    (c7_amended_exception_boundary 4 "boom"
      (fun _ => (Except.error "boom" : Except String ChapterRunRecord)) [1]).1,
    (c7_amended_exception_boundary 4 "boom"
      (fun _ => (Except.error "boom" : Except String ChapterRunRecord)) [1]).2.1 rfl,
    (c7_amended_exception_boundary 4 "boom"
      (fun _ => (Except.error "boom" : Except String ChapterRunRecord)) [1]).2.2
      [Except.error "x", Except.ok (successWrapperResult 2 [])] 0⟩

/-! ### Global vs local chunk indexing (claim C10)
(src/main_document_mode_parallel.py `run_parallel_processing`,
src/worker_browser.py `process_assigned_chunks`,
src/main_document_mode.py `analyze_progress`) -/

/-- Embeds the global chunk collection at the top of
`run_parallel_processing`: a running counter assigns each chunk a
1-based global index across all chapters, producing
`(global_chunk_idx, chunk_text, chapter)` tuples. -/
def collect_all_chunks (chapters : List Chapter) : List (ℕ × String × Chapter) :=
  (chapters.foldl (fun acc ch =>
      ch.chunks.foldl (fun acc2 t => (acc2.1 + 1, acc2.2 ++ [(acc2.1 + 1, t, ch)])) acc)
    ((0 : ℕ), ([] : List (ℕ × String × Chapter)))).2

/-- Total chunk count of the chapters before a given one. -/
def prevLen (pre : List Chapter) : ℕ := (pre.map (fun c2 => c2.chunks.length)).sum

/-- The `(global_idx, text)` pairs of one chapter whose chunks start
at global index `start + 1`. -/
def chapterGlobalChunks (start : ℕ) (ch : Chapter) : List (ℕ × String) :=
  (List.range' (start + 1) ch.chunks.length).zip ch.chunks

/-- Reference form of `collect_all_chunks` starting at counter value
`start`. -/
def collectFrom (start : ℕ) : List Chapter → List (ℕ × String × Chapter)
  | [] => []
  | ch :: rest =>
      (chapterGlobalChunks start ch).map (fun q => (q.1, q.2, ch)) ++
        collectFrom (start + ch.chunks.length) rest

theorem chunk_fold_eq (chref : Chapter) :
    ∀ (chunks : List String) (n : ℕ) (acc : List (ℕ × String × Chapter)),
      chunks.foldl (fun acc2 t => (acc2.1 + 1, acc2.2 ++ [(acc2.1 + 1, t, chref)]))
          (n, acc) =
        (n + chunks.length,
          acc ++ ((List.range' (n + 1) chunks.length).zip chunks).map
            (fun q => (q.1, q.2, chref))) := by
  intro chunks
  induction chunks with
  | nil => intro n acc; simp
  | cons t rest ih =>
    intro n acc
    rw [List.foldl_cons, ih]
    simp only [List.length_cons, List.range'_succ, List.zip_cons_cons, List.map_cons]
    rw [show n + 1 + rest.length = n + (rest.length + 1) by omega]
    simp [List.append_assoc]

theorem collect_fold_eq :
    ∀ (chapters : List Chapter) (n : ℕ) (acc : List (ℕ × String × Chapter)),
      chapters.foldl (fun acc ch =>
          ch.chunks.foldl
            (fun acc2 t => (acc2.1 + 1, acc2.2 ++ [(acc2.1 + 1, t, ch)])) acc)
        (n, acc) =
      (n + (chapters.map (fun c2 => c2.chunks.length)).sum,
        acc ++ collectFrom n chapters) := by
  intro chapters
  induction chapters with
  | nil => intro n acc; simp [collectFrom]
  | cons ch rest ih =>
    intro n acc
    rw [List.foldl_cons, chunk_fold_eq ch ch.chunks n acc, ih]
    simp [collectFrom, chapterGlobalChunks, List.append_assoc, Nat.add_assoc]

theorem collect_all_chunks_eq (chapters : List Chapter) :
    collect_all_chunks chapters = collectFrom 0 chapters := by
  unfold collect_all_chunks
  rw [collect_fold_eq chapters 0 []]
  simp

theorem collectFrom_append (rest : List Chapter) :
    ∀ (pre : List Chapter) (n : ℕ),
      collectFrom n (pre ++ rest) =
        collectFrom n pre ++ collectFrom (n + prevLen pre) rest := by
  intro pre
  induction pre with
  | nil => intro n; simp [collectFrom, prevLen]
  | cons ch rest2 ih =>
    intro n
    simp only [List.cons_append, collectFrom]
    rw [show rest2.append rest = rest2 ++ rest from rfl, ih (n + ch.chunks.length)]
    simp only [prevLen, List.map_cons, List.sum_cons]
    simp [List.append_assoc, Nat.add_assoc]

theorem mem_collectFrom {t : ℕ × String × Chapter} :
    ∀ (l : List Chapter) (n : ℕ), t ∈ collectFrom n l → t.2.2 ∈ l := by
  intro l
  induction l with
  | nil => intro n h; simp [collectFrom] at h
  | cons ch rest ih =>
    intro n h
    rcases List.mem_append.mp h with h2 | h2
    · obtain ⟨q, _, hqt⟩ := List.mem_map.mp h2
      rw [← hqt]
      simp
    · exact List.mem_cons_of_mem _ (ih _ h2)

theorem mem_chapterGlobalChunks {q : ℕ × String} {start : ℕ} {ch : Chapter}
    (h : q ∈ chapterGlobalChunks start ch) :
    q.1 ∈ List.range' (start + 1) ch.chunks.length := by
  obtain ⟨qa, qb⟩ := q
  exact (List.of_mem_zip h).1

theorem filesOf_all_success (bytes : ℕ → List ℕ) (od cdn : String) :
    ∀ l : List (ℕ × String),
      filesOf (fun idx _ => .audio (bytes idx)) od cdn l =
        l.map (fun q => (ospath_join (ospath_join od cdn) (chunkFileName cdn q.1),
          bytes q.1)) := by
  intro l
  induction l with
  | nil => rfl
  | cons q rest ih =>
    simp only [filesOf, List.filterMap_cons, List.map_cons] at ih ⊢
    rw [show chunkFinal (fun idx _ => AudioResult.audio (bytes idx)) q.1 =
        AudioResult.audio (bytes q.1) from rfl]
    rw [ih]

theorem ospath_join_ne_left (a b : String) : ospath_join a b ≠ a := by
  intro h
  have hlen := congrArg String.length h
  simp only [ospath_join, String.length_append] at hlen
  rw [show ("/" : String).length = 1 from rfl] at hlen
  omega

theorem ospath_join_right_inj {a b c : String}
    (h : ospath_join a b = ospath_join a c) : b = c := by
  have hd := congrArg String.data h
  simp only [ospath_join, String.data_append, List.append_assoc] at hd
  exact String.ext (List.append_cancel_left (List.append_cancel_left hd))

theorem chunkFileName_inj (cdn : String) {g i : ℕ}
    (h : chunkFileName cdn g = chunkFileName cdn i) : g = i := by
  have hd := congrArg String.data h
  simp only [chunkFileName, String.data_append, List.append_assoc] at hd
  have h1 := List.append_cancel_left hd
  have h2 := List.append_cancel_left h1
  have h3 := List.append_cancel_right h2
  exact nat_toString_inj (String.ext h3)

/-- Filesystem induced by a finished (possibly partial) run: exactly
the written artifact files exist, plus the given directories; sizes
come from the written byte payloads. -/
def fsOfRun (files : List (String × List ℕ)) (dirs : List String) : FileSystem :=
  { pathExists := fun p => dirs.contains p || files.any (fun f2 => f2.1 == p)
    getsize := fun p =>
      ((files.find? (fun f2 => f2.1 == p)).map (fun f2 => f2.2.length)).getD 0 }

theorem analyzeChapter_none_found (fs : FileSystem) (base : String) (ch : Chapter)
    (hdir : fs.pathExists (ospath_join base ch.dir_name) = true)
    (hconcat : fs.pathExists (ospath_join (ospath_join base ch.dir_name)
      (ch.dir_name ++ ".mp3")) = false)
    (hchunks : ∀ i ∈ List.range' 1 ch.chunks.length,
      fs.pathExists (ospath_join (ospath_join base ch.dir_name)
        (chunkFileName ch.dir_name i)) = false) :
    analyzeChapter fs base ch =
      (0, (List.range' 1 ch.chunks.length).map (fun i => (ch.number, i))) := by
  unfold analyzeChapter
  rw [if_neg (by simp [hdir])]
  rw [if_neg (by simp [hconcat])]
  congr 1
  · exact List.countP_eq_zero.mpr (fun i hi => by simp [hchunks i hi])
  · congr 1
    exact List.filter_eq_self.mpr (fun i hi => by simp [hchunks i hi])

theorem collect_filter_eq (pre post : List Chapter) (ch : Chapter)
    (hpre : ch ∉ pre) (hpost : ch ∉ post) :
    (collect_all_chunks (pre ++ ch :: post)).filter (fun t => t.2.2 = ch) =
      (chapterGlobalChunks (prevLen pre) ch).map (fun q => (q.1, q.2, ch)) := by
  rw [collect_all_chunks_eq, collectFrom_append (ch :: post) pre 0]
  simp only [collectFrom, Nat.zero_add]
  rw [List.filter_append, List.filter_append]
  have h1 : (collectFrom 0 pre).filter (fun t => decide (t.2.2 = ch)) = [] := by
    refine List.filter_eq_nil_iff.mpr ?_
    intro t ht
    simp only [decide_eq_true_eq]
    intro heq
    exact hpre (heq ▸ mem_collectFrom pre 0 ht)
  have h3 : (collectFrom (prevLen pre + ch.chunks.length) post).filter
      (fun t => decide (t.2.2 = ch)) = [] := by
    refine List.filter_eq_nil_iff.mpr ?_
    intro t ht
    simp only [decide_eq_true_eq]
    intro heq
    exact hpost (heq ▸ mem_collectFrom post _ ht)
  have h2 : ((chapterGlobalChunks (prevLen pre) ch).map
      (fun q => (q.1, q.2, ch))).filter (fun t => decide (t.2.2 = ch)) =
      (chapterGlobalChunks (prevLen pre) ch).map (fun q => (q.1, q.2, ch)) := by
    refine List.filter_eq_self.mpr ?_
    intro t ht
    obtain ⟨q, _, hqt⟩ := List.mem_map.mp ht
    rw [← hqt]
    simp
  rw [h1, h2, h3]
  simp

/-- Claim C10: in parallel mode each chunk carries a job-global
1-based index.  (1) the parallel pipeline hands chapter `ch`'s workers
exactly the `(global_idx, text)` pairs with indices
`prevLen pre + 1 .. prevLen pre + L`; (2) processing them with every
submission succeeding writes one artifact per chunk, named with the
global index; (3) if the chapter's first global index exceeds its
local chunk count `L`, the resume analysis over a filesystem holding
exactly those artifacts (and no chapter-level concatenated file)
recognizes none of them — every chunk of the chapter is reported
missing. -/
theorem c10_global_vs_local_index_mismatch
    (pre post : List Chapter) (ch : Chapter) (bytes : ℕ → List ℕ)
    (output_dir : String)
    (hfirst : prevLen pre + 1 > ch.chunks.length)
    (hch_pre : ch ∉ pre) (hch_post : ch ∉ post)
    (hno : ∀ g ∈ List.range' (prevLen pre + 1) ch.chunks.length,
      chunkFileName ch.dir_name g ≠ ch.dir_name ++ ".mp3") :
    (collect_all_chunks (pre ++ ch :: post)).filter (fun t => t.2.2 = ch) =
      (chapterGlobalChunks (prevLen pre) ch).map (fun q => (q.1, q.2, ch)) ∧
    (process_assigned_chunks (fun idx _ => .audio (bytes idx)) output_dir
        ch.dir_name initWorkerState (chapterGlobalChunks (prevLen pre) ch)).files =
      (chapterGlobalChunks (prevLen pre) ch).map
        (fun q => (ospath_join (ospath_join output_dir ch.dir_name)
          (chunkFileName ch.dir_name q.1), bytes q.1)) ∧
    analyzeChapter
      (fsOfRun
        (process_assigned_chunks (fun idx _ => .audio (bytes idx)) output_dir
          ch.dir_name initWorkerState (chapterGlobalChunks (prevLen pre) ch)).files
        [ospath_join output_dir ch.dir_name])
      output_dir ch =
      (0, (List.range' 1 ch.chunks.length).map (fun i => (ch.number, i))) := by
  have hfiles :
      (process_assigned_chunks (fun idx _ => .audio (bytes idx)) output_dir
        ch.dir_name initWorkerState (chapterGlobalChunks (prevLen pre) ch)).files =
      (chapterGlobalChunks (prevLen pre) ch).map
        (fun q => (ospath_join (ospath_join output_dir ch.dir_name)
          (chunkFileName ch.dir_name q.1), bytes q.1)) := by
    rw [process_characterize]
    simp only [initWorkerState]
    rw [filesOf_all_success]
    simp
  refine ⟨collect_filter_eq pre post ch hch_pre hch_post, hfiles, ?_⟩
  apply analyzeChapter_none_found
  · rw [hfiles]
    simp [fsOfRun]
  · rw [hfiles]
    simp only [fsOfRun, Bool.or_eq_false_iff]
    constructor
    · have hne := ospath_join_ne_left (ospath_join output_dir ch.dir_name)
        (ch.dir_name ++ ".mp3")
      simp [hne]
    · refine List.any_eq_false.mpr ?_
      intro x hx
      obtain ⟨q, hq, hqx⟩ := List.mem_map.mp hx
      rw [← hqx]
      intro heq
      exact hno q.1 (mem_chapterGlobalChunks hq)
        (ospath_join_right_inj (eq_of_beq heq))
  · intro i hi
    rw [hfiles]
    simp only [fsOfRun, Bool.or_eq_false_iff]
    constructor
    · have hne := ospath_join_ne_left (ospath_join output_dir ch.dir_name)
        (chunkFileName ch.dir_name i)
      simp [hne]
    · refine List.any_eq_false.mpr ?_
      intro x hx
      obtain ⟨q, hq, hqx⟩ := List.mem_map.mp hx
      rw [← hqx]
      intro heq
      have hqi : q.1 = i :=
        chunkFileName_inj ch.dir_name (ospath_join_right_inj (eq_of_beq heq))
      have hq1 := List.mem_range'_1.mp (mem_chapterGlobalChunks hq)
      have hi1 := List.mem_range'_1.mp hi
      omega

/-- Chapters used to witness claim C10: one 3-chunk chapter precedes a
2-chunk chapter, so the second chapter's first global index (4)
exceeds its local chunk count (2). -/
def c10Pre : List Chapter := [⟨1, "Alpha", "01-alpha", ["a1", "a2", "a3"]⟩]

/-- The chapter whose artifacts go unrecognized in the C10 witness. -/
def c10Ch : Chapter := ⟨2, "Beta", "02-beta", ["b1", "b2"]⟩

/-- Byte payload used in the C10 witness. -/
def c10Bytes : ℕ → List ℕ := fun _ => [1]

/-- Witness for claim C10 at a concrete two-chapter book. -/
theorem c10_witness :
    (prevLen c10Pre + 1 > c10Ch.chunks.length ∧ c10Ch ∉ c10Pre ∧
      c10Ch ∉ ([] : List Chapter) ∧
      ∀ g ∈ List.range' (prevLen c10Pre + 1) c10Ch.chunks.length,
        chunkFileName c10Ch.dir_name g ≠ c10Ch.dir_name ++ ".mp3") ∧
    ((collect_all_chunks (c10Pre ++ c10Ch :: [])).filter (fun t => t.2.2 = c10Ch) =
      (chapterGlobalChunks (prevLen c10Pre) c10Ch).map (fun q => (q.1, q.2, c10Ch)) ∧
    (process_assigned_chunks (fun idx _ => .audio (c10Bytes idx)) "audio/run"
        c10Ch.dir_name initWorkerState
        (chapterGlobalChunks (prevLen c10Pre) c10Ch)).files =
      (chapterGlobalChunks (prevLen c10Pre) c10Ch).map
        (fun q => (ospath_join (ospath_join "audio/run" c10Ch.dir_name)
          (chunkFileName c10Ch.dir_name q.1), c10Bytes q.1)) ∧
    analyzeChapter
      (fsOfRun
        (process_assigned_chunks (fun idx _ => .audio (c10Bytes idx)) "audio/run"
          c10Ch.dir_name initWorkerState
          (chapterGlobalChunks (prevLen c10Pre) c10Ch)).files
        [ospath_join "audio/run" c10Ch.dir_name])
      "audio/run" c10Ch =
      (0, (List.range' 1 c10Ch.chunks.length).map (fun i => (c10Ch.number, i)))) :=
  ⟨⟨by decide, by decide, by decide, by decide⟩,
    c10_global_vs_local_index_mismatch c10Pre [] c10Ch c10Bytes "audio/run"
      (by decide) (by decide) (by decide) (by decide)⟩
